/-
  Verification of `scripts/fetch_legacy_site.py` (moe-stream repository).

  The scraper extracts video-catalog records from HTML pages:
  * `extract_author`   — four ordered regex heuristics over the title,
  * `extract_from_page`— retrying fetch, title/description/tags/cover
                         extraction, media-URL discovery and episode
                         resolution,
  * `generate_import_text` — grouping, sorting and block emission.

  The Python regexes are embedded with a small backtracking engine over
  `List Char`.  Every quantifier in the source's regexes ranges over a
  single character class, so the items below (single char, star over a
  class, two-way alternation, end anchor) cover all of them; `X+` is
  embedded as `X X*` and `X?` as `(X|)`, which produce the same
  backtracking preference order.  The engine is written with explicit
  fuel so that it is structurally recursive and reduces inside the
  kernel; the fuel `sizeList items + s.length + 1` is sufficient because
  every recursive call strictly decreases `sizeList items + s.length`.

  Python `set` iteration order is unspecified (string hashing is salted
  per process), so the discovered-URL set is modelled as its first-seen
  deduplicated element list `discoveredUrls`, and theorems quantify over
  an arbitrary permutation `order` of it — exactly the guarantee
  `list(video_urls)` gives.  Python's salted `hash` builtin is modelled
  as an explicit function parameter `h : String → Int`: one `h` per
  process run.
-/
import Mathlib

set_option maxRecDepth 10000
set_option maxHeartbeats 4000000

/-- Mirrors the Python dataclass `Episode` (fields `num`, `title`,
`video_url`).  Episode numbers come from `int(...)` over a digit string,
hence `Nat`. -/
structure Episode where
  num : Nat
  title : String
  video_url : String
deriving DecidableEq, Repr

/-- Mirrors the Python dataclass `VideoInfo`. `error = none` is Python's
`error=None`. -/
structure VideoInfo where
  id : String
  title : String
  author : String
  description : String
  cover_url : String
  video_url : String
  tags : List String
  episodes : List Episode
  page_url : String
  error : Option String
deriving DecidableEq, Repr

/-- Left-biased choice on `Option`, with a thunked right branch (the
backtracking combinator of the regex engine). -/
def obr {α : Type} (a : Option α) (b : Unit → Option α) : Option α :=
  match a with
  | some x => some x
  | none => b ()

/-- One regex item. Every quantifier in the embedded patterns ranges over
a single character class, so these four shapes suffice:
`one p` a single character satisfying `p`; `star p lazy` is `p*` (greedy
when `lazy = false`, else `p*?`); `alt2 b1 b2` a two-way alternation of
item sequences (tried left first); `endAnchor` is `$` (end of input, or
just before a final newline — Python's default-mode `$`). -/
inductive RItem where
  | one : (Char → Bool) → RItem
  | star : (Char → Bool) → Bool → RItem
  | alt2 : List RItem → List RItem → RItem
  | endAnchor : RItem

mutual

/-- Size of a regex item (alternations count their branches). -/
def RItem.size : RItem → Nat
  | .one _ => 1
  | .star _ _ => 1
  | .endAnchor => 1
  | .alt2 b1 b2 => 1 + RItem.sizeList b1 + RItem.sizeList b2

/-- Size of a regex item sequence. -/
def RItem.sizeList : List RItem → Nat
  | [] => 0
  | i :: is => RItem.size i + RItem.sizeList is

end

theorem RItem.sizeList_append (a b : List RItem) :
    RItem.sizeList (a ++ b) = RItem.sizeList a + RItem.sizeList b := by
  induction a with
  | nil => simp [RItem.sizeList]
  | cons x xs ih => simp [RItem.sizeList, ih]; omega

/-- Backtracking matcher in continuation-passing style.  `k` receives the
input remaining after the item sequence has matched; the first success in
backtracking preference order wins (greedy = longest first, lazy =
shortest first, alternation = left branch first).  Structural recursion
on `fuel`. -/
def matchSeqF {α : Type} : Nat → List RItem → List Char → (List Char → Option α) → Option α
  | 0, _, _, _ => none
  | _ + 1, [], s, k => k s
  | fuel + 1, .one p :: rest, s, k =>
    match s with
    | [] => none
    | c :: s1 => if p c then matchSeqF fuel rest s1 k else none
  | fuel + 1, .star p true :: rest, s, k =>
    obr (matchSeqF fuel rest s k) (fun _ =>
      match s with
      | [] => none
      | c :: s1 => if p c then matchSeqF fuel (.star p true :: rest) s1 k else none)
  | fuel + 1, .star p false :: rest, s, k =>
    obr (match s with
         | [] => none
         | c :: s1 => if p c then matchSeqF fuel (.star p false :: rest) s1 k else none)
      (fun _ => matchSeqF fuel rest s k)
  | fuel + 1, .alt2 b1 b2 :: rest, s, k =>
    obr (matchSeqF fuel (b1 ++ rest) s k) (fun _ => matchSeqF fuel (b2 ++ rest) s k)
  | fuel + 1, .endAnchor :: rest, s, k =>
    if s = [] ∨ s = ['\n'] then matchSeqF fuel rest s k else none

/-- Sufficient fuel for `matchSeqF`: every recursive call strictly
decreases `RItem.sizeList items + s.length`. -/
def seqFuel (items : List RItem) (s : List Char) : Nat :=
  RItem.sizeList items + s.length + 1

/-- Match an item sequence against `s`, calling `k` on the remainder. -/
def matchSeq {α : Type} (items : List RItem) (s : List Char) (k : List Char → Option α) : Option α :=
  matchSeqF (seqFuel items s) items s k

/-- A pattern with exactly one capture group: items before the group, the
group's items, and items after it. -/
structure Pat where
  pre : List RItem
  grp : List RItem
  post : List RItem

/-- Try to match `p` at the start of `t`; on success return the capture
(the characters the group consumed) and the input remaining after the
whole match. -/
def matchCapture (p : Pat) (t : List Char) : Option (List Char × List Char) :=
  matchSeq p.pre t (fun t1 =>
    matchSeq p.grp t1 (fun t2 =>
      matchSeq p.post t2 (fun t3 =>
        some (t1.take (t1.length - t2.length), t3))))

/-- `re.search`: leftmost match. Returns the characters skipped before
the match, the capture, and the input remaining after the match. -/
def searchFrom (p : Pat) : List Char → Option (List Char × List Char × List Char)
  | [] =>
    match matchCapture p [] with
    | some (cap, rest) => some ([], cap, rest)
    | none => none
  | c :: s1 =>
    match matchCapture p (c :: s1) with
    | some (cap, rest) => some ([], cap, rest)
    | none => (searchFrom p s1).map (fun r => (c :: r.1, r.2.1, r.2.2))

/-- `re.search(pattern, s).group(1)` as an `Option`. -/
def reSearchG (p : Pat) (s : String) : Option String :=
  (searchFrom p s.data).map (fun r => String.mk r.2.1)

/-- `re.sub(pattern, "", s)` on `List Char`, with fuel (one unit per
replaced match; `s.length + 1` always suffices since each step either
consumes part of the input or ends). A zero-width match copies one
character and continues, as Python does. -/
def subAllF (p : Pat) : Nat → List Char → List Char
  | 0, s => s
  | fuel + 1, s =>
    match searchFrom p s with
    | none => s
    | some (pre, _, rest) =>
      if s.length - pre.length - rest.length = 0 then
        match rest with
        | [] => pre
        | c :: rest1 => pre ++ [c] ++ subAllF p fuel rest1
      else pre ++ subAllF p fuel rest

/-- `re.sub(pattern, "", s)` on `String`. -/
def reSubAll (p : Pat) (s : String) : String :=
  String.mk (subAllF p (s.data.length + 1) s.data)

/-- `re.finditer`: the group-1 captures of all non-overlapping matches,
left to right, with fuel as in `subAllF`. -/
def finditerF (p : Pat) : Nat → List Char → List (List Char)
  | 0, _ => []
  | fuel + 1, s =>
    match searchFrom p s with
    | none => []
    | some (pre, cap, rest) =>
      if s.length - pre.length - rest.length = 0 then
        match rest with
        | [] => [cap]
        | _ :: rest1 => cap :: finditerF p fuel rest1
      else cap :: finditerF p fuel rest

/-- `[m.group(1) for m in re.finditer(pattern, s)]`. -/
def finditerS (p : Pat) (s : String) : List String :=
  (finditerF p (s.data.length + 1) s.data).map String.mk

/-! ## Character classes and pattern-building helpers -/

/-- Python `\s` (whitespace class; ASCII whitespace plus the common
Unicode spaces NBSP and ideographic space). -/
def pyWS (c : Char) : Bool :=
  c = ' ' || c = '\t' || c = '\n' || c = '\r' ||
  c = '\x0b' || c = '\x0c' || c.val = 0xa0 || c.val = 0x3000

/-- Python `\d` (a decimal digit). -/
def pyDig (c : Char) : Bool := c.isDigit

/-- Python `str.strip()`: remove leading and trailing whitespace. -/
def pyStrip (s : String) : String :=
  String.mk (((s.data.dropWhile pyWS).reverse.dropWhile pyWS).reverse)

/-- Case-insensitive equality with a fixed char (the effect of `re.I` on
a literal character). -/
def ciEq (d : Char) : Char → Bool := fun c => c.toLower = d.toLower

/-- A case-sensitive literal character. -/
def litC (c : Char) : RItem := .one (fun x => x = c)

/-- A case-sensitive literal string as an item sequence. -/
def litS (str : String) : List RItem := str.data.map litC

/-- A case-insensitive literal character (under `re.I`). -/
def litCI (c : Char) : RItem := .one (ciEq c)

/-- A case-insensitive literal string as an item sequence. -/
def litSCI (str : String) : List RItem := str.data.map litCI

/-- Membership in an explicit character list (`[…]`). -/
def inCls (cs : List Char) : Char → Bool := fun c => cs.contains c

/-- Complement of an explicit character list (`[^…]`). -/
def notCls (cs : List Char) : Char → Bool := fun c => !cs.contains c

/-- Greedy `p*`. -/
def starGr (p : Char → Bool) : RItem := .star p false

/-- Lazy `p*?`. -/
def starLz (p : Char → Bool) : RItem := .star p true

/-- Greedy `p+`, embedded as `p p*`. -/
def plusG (p : Char → Bool) : List RItem := [.one p, .star p false]

/-- Lazy `p+?`, embedded as `p p*?`. -/
def plusL (p : Char → Bool) : List RItem := [.one p, .star p true]

/-- Greedy `p?`, embedded as `(p|)`. -/
def optG (p : Char → Bool) : RItem := .alt2 [.one p] []

/-- Ordered alternation of item sequences, `(?:b1|b2|…)`, as nested
two-way alternations (`altList [b] = alt2 b b` is semantically `b`). -/
def altList : List (List RItem) → RItem
  | [] => .alt2 [.one (fun _ => false)] [.one (fun _ => false)]
  | [b] => .alt2 b b
  | b :: bs => .alt2 b [altList bs]

/-! ## The regexes of `fetch_legacy_site.py` -/

/-- Author pattern 1: `【[^】]+】\s*([^「（【\n]+?)\s*[「（]`. -/
def authorPat1 : Pat :=
  ⟨litS "【" ++ plusG (notCls ['】']) ++ litS "】" ++ [starGr pyWS],
   plusL (notCls ['「', '（', '【', '\n']),
   [starGr pyWS, .one (inCls ['「', '（'])]⟩

/-- Author pattern 2: `【[^】]+】\s*([^-–\n]+?)\s*[-–]\s*第?\d`. -/
def authorPat2 : Pat :=
  ⟨litS "【" ++ plusG (notCls ['】']) ++ litS "】" ++ [starGr pyWS],
   plusL (notCls ['-', '–', '\n']),
   [starGr pyWS, .one (inCls ['-', '–']), starGr pyWS, optG (fun c => c = '第'), .one pyDig]⟩

/-- The class `[A-Za-z0-9_\-\s]` of author pattern 3. -/
def asciiAuthorCls (c : Char) : Bool :=
  (('A' ≤ c && c ≤ 'Z') || ('a' ≤ c && c ≤ 'z') || ('0' ≤ c && c ≤ '9') ||
   c = '_' || c = '-' || pyWS c)

/-- Author pattern 3: `【[^】]+】\s*([A-Za-z0-9_\-\s]+?)(?:\s*$|\s*[-–])`. -/
def authorPat3 : Pat :=
  ⟨litS "【" ++ plusG (notCls ['】']) ++ litS "】" ++ [starGr pyWS],
   plusL asciiAuthorCls,
   [.alt2 [starGr pyWS, .endAnchor] [starGr pyWS, .one (inCls ['-', '–'])]]⟩

/-- Author pattern 4: `【[^】]+】\s*([^\s「【\-（]+)`. -/
def authorPat4 : Pat :=
  ⟨litS "【" ++ plusG (notCls ['】']) ++ litS "】" ++ [starGr pyWS],
   plusG (fun c => !(pyWS c || inCls ['「', '【', '-', '（'] c)),
   []⟩

/-- The ordered author rules of `extract_author`. -/
def authorPatterns : List Pat := [authorPat1, authorPat2, authorPat3, authorPat4]

/-- Title pattern 1 (re.I):
`<h1[^>]*class="[^"]*article-title[^"]*"[^>]*>([^<]+)</h1>`. -/
def titlePat1 : Pat :=
  ⟨litSCI "<h1" ++ [starGr (notCls ['>'])] ++ litSCI "class=\"" ++ [starGr (notCls ['"'])] ++
     litSCI "article-title" ++ [starGr (notCls ['"'])] ++ litS "\"" ++
     [starGr (notCls ['>'])] ++ litS ">",
   plusG (notCls ['<']),
   litSCI "</h1>"⟩

/-- Title pattern 2 (re.I): `<meta[^>]*property="og:title"[^>]*content="([^"]+)"`. -/
def titlePat2 : Pat :=
  ⟨litSCI "<meta" ++ [starGr (notCls ['>'])] ++ litSCI "property=\"og:title\"" ++
     [starGr (notCls ['>'])] ++ litSCI "content=\"",
   plusG (notCls ['"']),
   litS "\""⟩

/-- Title pattern 3 (re.I): `<title>([^<]+)</title>`. -/
def titlePat3 : Pat :=
  ⟨litSCI "<title>", plusG (notCls ['<']), litSCI "</title>"⟩

/-- The ordered title rules of `extract_from_page`. -/
def titlePatterns : List Pat := [titlePat1, titlePat2, titlePat3]

/-- The branding-cleanup pattern `\s*[-|]\s*咪咔映阁.*$` (no capture
group; `.` is any char but newline). -/
def brandPat : Pat :=
  ⟨[starGr pyWS, .one (inCls ['-', '|']), starGr pyWS] ++ litS "咪咔映阁" ++
     [starGr (fun c => c ≠ '\n'), .endAnchor],
   [], []⟩

/-- Description pattern 1 (re.I): `<meta[^>]*name="description"[^>]*content="([^"]+)"`. -/
def descPat1 : Pat :=
  ⟨litSCI "<meta" ++ [starGr (notCls ['>'])] ++ litSCI "name=\"description\"" ++
     [starGr (notCls ['>'])] ++ litSCI "content=\"",
   plusG (notCls ['"']),
   litS "\""⟩

/-- Description pattern 2 (re.I): `<meta[^>]*property="og:description"[^>]*content="([^"]+)"`. -/
def descPat2 : Pat :=
  ⟨litSCI "<meta" ++ [starGr (notCls ['>'])] ++ litSCI "property=\"og:description\"" ++
     [starGr (notCls ['>'])] ++ litSCI "content=\"",
   plusG (notCls ['"']),
   litS "\""⟩

/-- Description pattern 3 (re.I):
`<div[^>]*class="[^"]*joe_detail__abstract[^"]*"[^>]*>([\s\S]*?)</div>`. -/
def descPat3 : Pat :=
  ⟨litSCI "<div" ++ [starGr (notCls ['>'])] ++ litSCI "class=\"" ++ [starGr (notCls ['"'])] ++
     litSCI "joe_detail__abstract" ++ [starGr (notCls ['"'])] ++ litS "\"" ++
     [starGr (notCls ['>'])] ++ litS ">",
   [starLz (fun _ => true)],
   litSCI "</div>"⟩

/-- The ordered description rules. -/
def descPatterns : List Pat := [descPat1, descPat2, descPat3]

/-- The markup-stripping pattern `<[^>]+>` used on descriptions. -/
def tagStripPat : Pat :=
  ⟨litS "<" ++ plusG (notCls ['>']) ++ litS ">", [], []⟩

/-- The tag-region pattern (re.I):
`<div[^>]*class="[^"]*article-tags[^"]*"[^>]*>([\s\S]*?)</div>`. -/
def tagRegionPat : Pat :=
  ⟨litSCI "<div" ++ [starGr (notCls ['>'])] ++ litSCI "class=\"" ++ [starGr (notCls ['"'])] ++
     litSCI "article-tags" ++ [starGr (notCls ['"'])] ++ litS "\"" ++
     [starGr (notCls ['>'])] ++ litS ">",
   [starLz (fun _ => true)],
   litSCI "</div>"⟩

/-- The tag-item pattern (re.I): `<a[^>]*>#\s*([^<]+)</a>`. -/
def tagItemPat : Pat :=
  ⟨litSCI "<a" ++ [starGr (notCls ['>'])] ++ litS ">#" ++ [starGr pyWS],
   plusG (notCls ['<']),
   litSCI "</a>"⟩

/-- Cover pattern 1 (re.I): `<meta[^>]*property="og:image"[^>]*content="([^"]+)"`. -/
def coverPat1 : Pat :=
  ⟨litSCI "<meta" ++ [starGr (notCls ['>'])] ++ litSCI "property=\"og:image\"" ++
     [starGr (notCls ['>'])] ++ litSCI "content=\"",
   plusG (notCls ['"']),
   litS "\""⟩

/-- Cover pattern 2 (re.I): `<meta[^>]*name="twitter:image"[^>]*content="([^"]+)"`. -/
def coverPat2 : Pat :=
  ⟨litSCI "<meta" ++ [starGr (notCls ['>'])] ++ litSCI "name=\"twitter:image\"" ++
     [starGr (notCls ['>'])] ++ litSCI "content=\"",
   plusG (notCls ['"']),
   litS "\""⟩

/-- Cover pattern 3 (re.I):
`<img[^>]*class="[^"]*joe_detail__thumb[^"]*"[^>]*src="([^"]+)"`. -/
def coverPat3 : Pat :=
  ⟨litSCI "<img" ++ [starGr (notCls ['>'])] ++ litSCI "class=\"" ++ [starGr (notCls ['"'])] ++
     litSCI "joe_detail__thumb" ++ [starGr (notCls ['"'])] ++ litS "\"" ++
     [starGr (notCls ['>'])] ++ litSCI "src=\"",
   plusG (notCls ['"']),
   litS "\""⟩

/-- The ordered cover rules. -/
def coverPatterns : List Pat := [coverPat1, coverPat2, coverPat3]

/-- The video container extensions
`(?:mp4|mkv|webm|avi|mov|m4v|flv|wmv|ts|m3u8)`. -/
def videoExts : List String :=
  ["mp4", "mkv", "webm", "avi", "mov", "m4v", "flv", "wmv", "ts", "m3u8"]

/-- The extension alternation, case-insensitive (the patterns carry
`re.I`). -/
def extAlt : RItem := altList (videoExts.map litSCI)

/-- The class `[^"\']`. -/
def notQuote2 (c : Char) : Bool := !(c = '"' || c = '\'')

/-- The class `["\']`. -/
def quoteCls : RItem := .one (fun c => c = '"' || c = '\'')

/-- Video-URL pattern 1 (re.I):
`["\'](https?://cdn\.mikiacg\.vip/[^"\']+\.(?:EXT))["\']`. -/
def videoPat1 : Pat :=
  ⟨[quoteCls],
   litSCI "http" ++ [optG (ciEq 's')] ++ litSCI "://cdn.mikiacg.vip/" ++
     plusG notQuote2 ++ litS "." ++ [extAlt],
   [quoteCls]⟩

/-- Video-URL pattern 2 (re.I):
`["\'](https?://[^"\']*mikiacg[^"\']*\/[^"\']+\.(?:EXT))["\']`. -/
def videoPat2 : Pat :=
  ⟨[quoteCls],
   litSCI "http" ++ [optG (ciEq 's')] ++ litSCI "://" ++ [starGr notQuote2] ++
     litSCI "mikiacg" ++ [starGr notQuote2] ++ litS "/" ++
     plusG notQuote2 ++ litS "." ++ [extAlt],
   [quoteCls]⟩

/-- Video-URL pattern 3 (re.I): `url\s*:\s*["\'](https?://[^"\']+\.(?:EXT))["\']`. -/
def videoPat3 : Pat :=
  ⟨litSCI "url" ++ [starGr pyWS] ++ litS ":" ++ [starGr pyWS, quoteCls],
   litSCI "http" ++ [optG (ciEq 's')] ++ litSCI "://" ++
     plusG notQuote2 ++ litS "." ++ [extAlt],
   [quoteCls]⟩

/-- The episode-number pattern (re.I): `/(\d+)\.(?:EXT)$`. -/
def epNumPat : Pat :=
  ⟨litS "/", plusG pyDig, [litC '.', extAlt, .endAnchor]⟩

/-- The record-id pattern (case-sensitive): `/archives/(\d+)\.html`. -/
def archivesPat : Pat :=
  ⟨litS "/archives/", plusG pyDig, litS ".html"⟩

/-! ## `extract_author` -/

/-- One author rule: `re.search`, `group(1).strip()`, then the
`2 <= len(author) <= 50` validity check (rule is skipped otherwise). -/
def ruleResult (p : Pat) (title : String) : Option String :=
  (reSearchG p title).bind fun g =>
    let a := pyStrip g
    if 2 ≤ a.length ∧ a.length ≤ 50 then some a else none

/-- `extract_author`: first rule (in listed order) that matches and
passes the length check wins; otherwise the sentinel `"未分类"`. -/
def extract_author (title : String) : String :=
  (authorPatterns.findSome? (fun p => ruleResult p title)).getD "未分类"

/-! ## `extract_from_page` -/

/-- The record id (lines 101–102):
`match.group(1) if match else str(hash(page_url))[:8]`, with the Python
`hash` builtin modelled as the explicit process hash function `h`. -/
def videoId (h : String → Int) (page_url : String) : String :=
  match reSearchG archivesPat page_url with
  | some ds => ds
  | none => (toString (h page_url)).take 8

/-- `int(...)` on a captured digit string. -/
def digitsToNat (s : String) : Nat :=
  s.data.foldl (fun n c => n * 10 + (c.toNat - '0'.toNat)) 0

/-- The episode number parsed from a URL:
`re.search(rf'/(\d+)\.{video_extensions}$', url, re.I)` and `int` of the
captured group. -/
def epNum (url : String) : Option Nat :=
  (reSearchG epNumPat url).map digitsToNat

/-- One step of the episode-collection loop (lines 186–192): a URL with a
parsed positive number not already used appends an `Episode`. -/
def epStep (eps : List Episode) (url : String) : List Episode :=
  match epNum url with
  | some n =>
    if 0 < n ∧ ∀ e ∈ eps, e.num ≠ n then
      eps ++ [⟨n, "第" ++ toString n ++ "集", url⟩]
    else eps
  | none => eps

/-- The episode-collection loop over the discovered URLs in iteration
order. -/
def collectNumbered (urls : List String) : List Episode :=
  urls.foldl epStep []

/-- Stable insertion sort.  Python's `list.sort` is a stable ascending
sort; stable ascending sorts of a list are extensionally unique, so this
structural implementation (which keeps kernel reducibility) models it
exactly: `x` is inserted after every strictly smaller element and before
the first element not smaller than it. -/
def insertIn {α : Type} (blt : α → α → Bool) (x : α) : List α → List α
  | [] => [x]
  | y :: ys => if blt y x then y :: insertIn blt x ys else x :: y :: ys

/-- Stable insertion sort, see `insertIn`. -/
def insertionSort {α : Type} (blt : α → α → Bool) : List α → List α
  | [] => []
  | x :: xs => insertIn blt x (insertionSort blt xs)

/-- `episodes.sort(key=lambda e: e.num)`'s comparison. -/
def epLt (a b : Episode) : Bool := a.num.blt b.num

/-- The single-episode fallback (lines 194–196): if no numbered episode
was found but at least one URL exists, a single `"正片"` episode on the
first URL in iteration order. -/
def fallbackEps (eps : List Episode) (urls : List String) : List Episode :=
  match eps, urls with
  | [], u :: _ => [⟨1, "正片", u⟩]
  | eps, _ => eps

/-- Episode resolution (lines 184–199): collect numbered episodes in
iteration order, fall back to a single `"正片"` episode on the first URL
when none were numbered but URLs exist, then sort ascending by number. -/
def resolveEpisodes (urls : List String) : List Episode :=
  insertionSort epLt (fallbackEps (collectNumbered urls) urls)

/-- First-seen-order deduplication: the element list of a Python `set`
built by successive `add` calls. -/
def dedupList (l : List String) : List String :=
  l.foldl (fun acc u => if u ∈ acc then acc else acc ++ [u]) []

/-- The discovered media-URL set (lines 170–181): all captures of the
three URL patterns, deduplicated.  `list(video_urls)` iterates this set
in an unspecified order, so theorems quantify over an arbitrary
permutation of this list. -/
def discoveredUrls (html : String) : List String :=
  dedupList (finditerS videoPat1 html ++ finditerS videoPat2 html ++ finditerS videoPat3 html)

/-- The tag loop inside the `article-tags` region (lines 150–155). -/
def collectTags (region : String) : List String :=
  (finditerS tagItemPat region).foldl (fun acc cap =>
    let tag := pyStrip cap
    if tag ≠ "" ∧ tag ∉ acc then acc ++ [tag] else acc) []

/-- Tags extraction (lines 144–155): only from the `article-tags` region. -/
def extractTags (html : String) : List String :=
  match reSearchG tagRegionPat html with
  | some region => collectTags region
  | none => []

/-- Description extraction (lines 131–142): first matching pattern, with
embedded markup stripped and the result trimmed. -/
def extractDesc (html : String) : String :=
  ((descPatterns.findSome? (fun p => reSearchG p html)).map
    (fun g => pyStrip (reSubAll tagStripPat g))).getD ""

/-- Cover extraction (lines 157–167): first matching pattern, raw capture. -/
def extractCover (html : String) : String :=
  (coverPatterns.findSome? (fun p => reSearchG p html)).getD ""

/-- Title cleanup (line 125): strip a trailing site-branding suffix. -/
def cleanTitle (t : String) : String := reSubAll brandPat t

/-- `unique_video_urls[0] if unique_video_urls else ""` (line 210). -/
def headOr (order : List String) : String :=
  match order with
  | u :: _ => u
  | [] => ""

/-- The pure success path of `extract_from_page` on a fetched document
(lines 113–214).  `order` is the iteration order of the discovered URL
set (`unique_video_urls`).  Returns `none` when no title pattern matched
(or the cleaned title is empty) — line 128–129. -/
def extractFromHtml (video_id page_url html : String) (order : List String) : Option VideoInfo :=
  match titlePatterns.findSome? (fun p => reSearchG p html) with
  | none => none
  | some raw =>
    let title := cleanTitle (pyStrip raw)
    if title = "" then none
    else
      some { id := video_id
             title := title
             author := extract_author title
             description := extractDesc html
             cover_url := extractCover html
             video_url := headOr order
             tags := extractTags html
             episodes := resolveEpisodes order
             page_url := page_url
             error := none }

/-- The tagged-failure record built on final fetch failure
(lines 219–228): every content field empty, `error` set. -/
def failRecord (video_id page_url err : String) : VideoInfo :=
  ⟨video_id, "", "", "", "", "", [], [], page_url, some err⟩

/-- `extract_from_page` (lines 99–231): the three fetch attempts
(`fetch i` is the outcome of attempt `i`), unrolled; a successful fetch
runs the pure extraction, a third failure yields the tagged-failure
record. -/
def extract_from_page (page_url : String) (fetch : Nat → Except String String)
    (h : String → Int) (order : List String) : Option VideoInfo :=
  let video_id := videoId h page_url
  match fetch 0 with
  | .ok html => extractFromHtml video_id page_url html order
  | .error _ =>
    match fetch 1 with
    | .ok html => extractFromHtml video_id page_url html order
    | .error _ =>
      match fetch 2 with
      | .ok html => extractFromHtml video_id page_url html order
      | .error e => some (failRecord video_id page_url e)

/-! ## `generate_import_text` -/

/-- Python string `<`: lexicographic comparison by code point. -/
def charsLt : List Char → List Char → Bool
  | [], [] => false
  | [], _ :: _ => true
  | _ :: _, [] => false
  | a :: as, b :: bs =>
    if a.val < b.val then true else if b.val < a.val then false else charsLt as bs

/-- Python string `<` on `String`. -/
def strLt (a b : String) : Bool := charsLt a.data b.data

/-- Python truthiness of the `error` field: `None` and `""` are falsy. -/
def errTruthy : Option String → Bool
  | none => false
  | some s => s != ""

/-- The validity filter (line 237):
`v.title and not v.error and (v.video_url or v.episodes)`. -/
def validVideos (videos : List VideoInfo) : List VideoInfo :=
  videos.filter (fun v =>
    v.title != "" && !errTruthy v.error && (v.video_url != "" || !v.episodes.isEmpty))

/-- Append a record to its author's group, keeping dict insertion order
of keys (lines 239–244). -/
def addToGroups (gs : List (String × List VideoInfo)) (a : String) (v : VideoInfo) :
    List (String × List VideoInfo) :=
  match gs with
  | [] => [(a, [v])]
  | (k, l) :: rest => if k = a then (k, l ++ [v]) :: rest else (k, l) :: addToGroups rest a v

/-- Group by author; `video.author or "未分类"` maps an empty author to
the sentinel. -/
def groupByAuthor (videos : List VideoInfo) : List (String × List VideoInfo) :=
  videos.foldl (fun gs v => addToGroups gs (if v.author = "" then "未分类" else v.author) v) []

/-- One emitted block (title line, optional description, optional cover,
媒体 URL, optional tags, blank separator). -/
def blockLines (title desc cover vurl : String) (tags : List String) : List String :=
  ["标题：" ++ title]
  ++ (if desc ≠ "" then ["描述：" ++ desc] else [])
  ++ (if cover ≠ "" then ["封面：" ++ cover] else [])
  ++ ["视频：" ++ vurl]
  ++ (if tags ≠ [] then ["标签：" ++ String.intercalate "," tags] else [])
  ++ [""]

/-- Block emission for one record (lines 254–280): more than one episode
emits a block per episode that has a URL; otherwise a single block if the
primary URL is non-empty; otherwise nothing. -/
def emitVideo (v : VideoInfo) : List String × Nat :=
  if v.episodes.length > 1 then
    let ves := v.episodes.filter (fun ep => ep.video_url != "")
    (ves.foldl (fun acc ep =>
        acc ++ blockLines (v.title ++ " - " ++ ep.title) v.description v.cover_url
          ep.video_url v.tags) [],
     ves.length)
  else if v.video_url ≠ "" then
    (blockLines v.title v.description v.cover_url v.video_url v.tags, 1)
  else ([], 0)

/-- `generate_import_text` (lines 234–282): filter, group by author, sort
groups by author string (Python `sorted` on the items; keys are unique so
the key comparison decides), emit a `合集：` header per group followed by
its records' blocks, and return the joined text with the emitted-block
count. -/
def generate_import_text (videos : List VideoInfo) : String × Nat :=
  let valid := validVideos videos
  let grouped := groupByAuthor valid
  let sortedGroups := insertionSort (fun g1 g2 => strLt g1.1 g2.1) grouped
  let res := sortedGroups.foldl (fun (acc : List String × Nat) g =>
      let acc1 := (acc.1 ++ ["合集：" ++ g.1, ""], acc.2)
      g.2.foldl (fun (a : List String × Nat) v =>
          let e := emitVideo v
          (a.1 ++ e.1, a.2 + e.2)) acc1) ([], 0)
  (String.intercalate "\n" res.1, res.2)

/-! ## Engine lemmas -/

theorem obr_eq_some {α : Type} {a : Option α} {b : Unit → Option α} {x : α}
    (h : obr a b = some x) : a = some x ∨ (a = none ∧ b () = some x) := by
  cases a with
  | some y => left; simpa [obr] using h
  | none => right; exact ⟨rfl, by simpa [obr] using h⟩

/-- If the matcher succeeds, the continuation succeeded on some input no
longer than the original. -/
theorem matchSeqF_some {α : Type} :
    ∀ (fuel : Nat) (items : List RItem) (s : List Char) (k : List Char → Option α) (a : α),
      matchSeqF fuel items s k = some a → ∃ s2, s2.length ≤ s.length ∧ k s2 = some a := by
  intro fuel
  induction fuel with
  | zero => intro items s k a h; simp [matchSeqF] at h
  | succ n ih =>
    intro items s k a h
    match items with
    | [] => exact ⟨s, Nat.le_refl _, by simpa [matchSeqF] using h⟩
    | .one p :: rest =>
      match s with
      | [] => simp [matchSeqF] at h
      | c :: s1 =>
        simp only [matchSeqF] at h
        by_cases hp : p c
        · rw [if_pos hp] at h
          obtain ⟨s2, h2, hk⟩ := ih rest s1 k a h
          exact ⟨s2, Nat.le_succ_of_le h2, hk⟩
        · rw [if_neg hp] at h; exact absurd h (by simp)
    | .star p true :: rest =>
      simp only [matchSeqF] at h
      rcases obr_eq_some h with h1 | ⟨-, h2⟩
      · exact ih rest s k a h1
      · match s with
        | [] => simp at h2
        | c :: s1 =>
          simp only at h2
          by_cases hp : p c
          · rw [if_pos hp] at h2
            obtain ⟨s2, hs2, hk⟩ := ih (.star p true :: rest) s1 k a h2
            exact ⟨s2, Nat.le_succ_of_le hs2, hk⟩
          · rw [if_neg hp] at h2; exact absurd h2 (by simp)
    | .star p false :: rest =>
      simp only [matchSeqF] at h
      rcases obr_eq_some h with h1 | ⟨-, h2⟩
      · match s with
        | [] => simp at h1
        | c :: s1 =>
          simp only at h1
          by_cases hp : p c
          · rw [if_pos hp] at h1
            obtain ⟨s2, hs2, hk⟩ := ih (.star p false :: rest) s1 k a h1
            exact ⟨s2, Nat.le_succ_of_le hs2, hk⟩
          · rw [if_neg hp] at h1; exact absurd h1 (by simp)
      · exact ih rest s k a h2
    | .alt2 b1 b2 :: rest =>
      simp only [matchSeqF] at h
      rcases obr_eq_some h with h1 | ⟨-, h2⟩
      · exact ih (b1 ++ rest) s k a h1
      · exact ih (b2 ++ rest) s k a h2
    | .endAnchor :: rest =>
      simp only [matchSeqF] at h
      by_cases he : s = [] ∨ s = ['\n']
      · rw [if_pos he] at h; exact ih rest s k a h
      · rw [if_neg he] at h; exact absurd h (by simp)

/-- Same statement for `matchSeq`. -/
theorem matchSeq_some {α : Type} {items : List RItem} {s : List Char}
    {k : List Char → Option α} {a : α} (h : matchSeq items s k = some a) :
    ∃ s2, s2.length ≤ s.length ∧ k s2 = some a :=
  matchSeqF_some _ _ _ _ _ h

/-- When the capture group starts with a single-character item, a
successful capture is non-empty and its head satisfies that item. -/
theorem matchCapture_cap_cons {p : Pat} {q : Char → Bool} {grest : List RItem}
    (hg : p.grp = .one q :: grest) {t cap rest : List Char}
    (h : matchCapture p t = some (cap, rest)) :
    ∃ c cs, cap = c :: cs ∧ q c = true := by
  unfold matchCapture at h
  obtain ⟨t1, -, h1⟩ := matchSeq_some h
  rw [hg] at h1
  simp only [matchSeq, seqFuel, matchSeqF] at h1
  cases t1 with
  | nil => simp at h1
  | cons c t1' =>
    dsimp only at h1
    by_cases hq : q c
    · rw [if_pos hq] at h1
      obtain ⟨t2, ht2, h2⟩ := matchSeqF_some _ _ _ _ _ h1
      obtain ⟨t3, -, h3⟩ := matchSeq_some h2
      simp only [Option.some.injEq, Prod.mk.injEq] at h3
      refine ⟨c, (t1'.take (t1'.length - t2.length)), ?_, hq⟩
      have hlen : (c :: t1').length - t2.length = (t1'.length - t2.length) + 1 := by
        simp only [List.length_cons]; omega
      rw [← h3.1, hlen, List.take_succ_cons]
    · rw [if_neg hq] at h1; exact absurd h1 (by simp)

/-- A successful `searchFrom` result comes from a successful
`matchCapture` at some start position. -/
theorem searchFrom_cap {p : Pat} :
    ∀ {s pre cap rest : List Char}, searchFrom p s = some (pre, cap, rest) →
      ∃ t, matchCapture p t = some (cap, rest) := by
  intro s
  induction s with
  | nil =>
    intro pre cap rest h
    unfold searchFrom at h
    match hm : matchCapture p [], h with
    | some (cap1, rest1), h =>
      dsimp only at h; simp only [Option.some.injEq, Prod.mk.injEq] at h
      exact ⟨[], by rw [hm, h.2.1, h.2.2]⟩
    | none, h => exact absurd h (by simp)
  | cons c s1 ih =>
    intro pre cap rest h
    unfold searchFrom at h
    match hm : matchCapture p (c :: s1), h with
    | some (cap1, rest1), h =>
      dsimp only at h; simp only [Option.some.injEq, Prod.mk.injEq] at h
      exact ⟨c :: s1, by rw [hm, h.2.1, h.2.2]⟩
    | none, h =>
      dsimp only at h
      rw [Option.map_eq_some'] at h
      obtain ⟨⟨p1, c1, r1⟩, hr, he⟩ := h
      simp only [Prod.mk.injEq] at he
      obtain ⟨t, ht⟩ := ih hr
      exact ⟨t, by rw [ht, he.2.1, he.2.2]⟩

/-- Every capture produced by `finditerF` comes from a successful
`matchCapture`. -/
theorem finditerF_mem {p : Pat} :
    ∀ {fuel : Nat} {s cap : List Char}, cap ∈ finditerF p fuel s →
      ∃ t rest, matchCapture p t = some (cap, rest) := by
  intro fuel
  induction fuel with
  | zero => intro s cap h; simp [finditerF] at h
  | succ n ih =>
    intro s cap h
    unfold finditerF at h
    match hm : searchFrom p s, h with
    | none, h => simp at h
    | some (pre, cap1, rest), h =>
      dsimp only at h
      by_cases hw : s.length - pre.length - rest.length = 0
      · rw [if_pos hw] at h
        match hr : rest, h with
        | [], h =>
          simp only [List.mem_singleton] at h
          obtain ⟨t, ht⟩ := searchFrom_cap hm
          exact ⟨t, [], by rw [ht, h]⟩
        | c :: rest1, h =>
          rcases List.mem_cons.mp h with h1 | h1
          · obtain ⟨t, ht⟩ := searchFrom_cap hm
            exact ⟨t, c :: rest1, by rw [ht, h1]⟩
          · exact ih h1
      · rw [if_neg hw] at h
        rcases List.mem_cons.mp h with h1 | h1
        · obtain ⟨t, ht⟩ := searchFrom_cap hm
          exact ⟨t, rest, by rw [ht, h1]⟩
        · exact ih h1

/-- Every string produced by `finditerS` on a pattern whose group starts
with a single-character item is non-empty. -/
theorem finditerS_ne_empty {p : Pat} {q : Char → Bool} {grest : List RItem}
    (hg : p.grp = .one q :: grest) {s : String} {u : String}
    (hu : u ∈ finditerS p s) : u ≠ "" := by
  unfold finditerS at hu
  simp only [List.mem_map] at hu
  obtain ⟨cap, hcap, hmk⟩ := hu
  obtain ⟨t, rest, ht⟩ := finditerF_mem hcap
  obtain ⟨c, cs, hc, -⟩ := matchCapture_cap_cons hg ht
  rw [← hmk, hc]
  intro hcon
  have : (String.mk (c :: cs)).data = ("" : String).data := by rw [hcon]
  simp at this

/-! ## Discovered-URL lemmas -/

theorem mem_foldl_dedup {u : String} :
    ∀ {l acc : List String},
      u ∈ l.foldl (fun acc u => if u ∈ acc then acc else acc ++ [u]) acc →
      u ∈ acc ∨ u ∈ l := by
  intro l
  induction l with
  | nil => intro acc h; exact Or.inl h
  | cons x xs ih =>
    intro acc h
    simp only [List.foldl_cons] at h
    rcases ih h with h1 | h1
    · by_cases hx : x ∈ acc
      · rw [if_pos hx] at h1; exact Or.inl h1
      · rw [if_neg hx] at h1
        rcases List.mem_append.mp h1 with h2 | h2
        · exact Or.inl h2
        · simp only [List.mem_singleton] at h2
          exact Or.inr (by simp [h2])
    · exact Or.inr (List.mem_cons_of_mem _ h1)

theorem mem_dedupList {u : String} {l : List String} (h : u ∈ dedupList l) : u ∈ l := by
  rcases mem_foldl_dedup h with h1 | h1
  · simp at h1
  · exact h1

/-- Every discovered media URL is a non-empty string (all three URL
patterns capture a group that starts with `h`/`H` of `https?`). -/
theorem mem_discoveredUrls_ne_empty {html : String} {u : String}
    (hu : u ∈ discoveredUrls html) : u ≠ "" := by
  have h1 := mem_dedupList hu
  rcases List.mem_append.mp h1 with h2 | h3
  · rcases List.mem_append.mp h2 with h4 | h4
    · obtain ⟨t1, ht1⟩ : ∃ t, videoPat1.grp = RItem.one (ciEq 'h') :: t := ⟨_, rfl⟩
      exact finditerS_ne_empty ht1 h4
    · obtain ⟨t1, ht1⟩ : ∃ t, videoPat2.grp = RItem.one (ciEq 'h') :: t := ⟨_, rfl⟩
      exact finditerS_ne_empty ht1 h4
  · obtain ⟨t1, ht1⟩ : ∃ t, videoPat3.grp = RItem.one (ciEq 'h') :: t := ⟨_, rfl⟩
    exact finditerS_ne_empty ht1 h3

/-! ## Episode-collection lemmas -/

/-- Any element of `epStep eps u` is either from `eps` or the
newly-appended episode of `u` (with its side conditions). -/
theorem epStep_mem {eps : List Episode} {u : String} {e : Episode}
    (he : e ∈ epStep eps u) :
    e ∈ eps ∨ ∃ n, epNum u = some n ∧ 0 < n ∧ (∀ x ∈ eps, x.num ≠ n) ∧
      e = ⟨n, "第" ++ toString n ++ "集", u⟩ := by
  unfold epStep at he
  cases hn : epNum u with
  | none => rw [hn] at he; exact Or.inl he
  | some n =>
    rw [hn] at he
    dsimp only at he
    by_cases hc : 0 < n ∧ ∀ x ∈ eps, x.num ≠ n
    · rw [if_pos hc] at he
      rcases List.mem_append.mp he with h1 | h1
      · exact Or.inl h1
      · right; exact ⟨n, rfl, hc.1, hc.2, by simpa using h1⟩
    · rw [if_neg hc] at he; exact Or.inl he

theorem epStep_pos {eps : List Episode} {u : String}
    (h : ∀ e ∈ eps, 0 < e.num) : ∀ e ∈ epStep eps u, 0 < e.num := by
  intro e he
  rcases epStep_mem he with h1 | ⟨n, -, hn, -, he'⟩
  · exact h e h1
  · rw [he']; exact hn

theorem epStep_pairwise {eps : List Episode} {u : String}
    (h : List.Pairwise (fun a b => a.num ≠ b.num) eps) :
    List.Pairwise (fun a b => a.num ≠ b.num) (epStep eps u) := by
  unfold epStep
  cases hn : epNum u with
  | none => exact h
  | some n =>
    dsimp only
    by_cases hc : 0 < n ∧ ∀ x ∈ eps, x.num ≠ n
    · rw [if_pos hc, List.pairwise_append]
      refine ⟨h, List.pairwise_singleton _ _, fun a ha b hb => ?_⟩
      simp only [List.mem_singleton] at hb
      rw [hb]
      exact hc.2 a ha
    · rw [if_neg hc]; exact h

theorem foldl_epStep_pos :
    ∀ (urls : List String) (acc : List Episode), (∀ e ∈ acc, 0 < e.num) →
      ∀ e ∈ urls.foldl epStep acc, 0 < e.num := by
  intro urls
  induction urls with
  | nil => intro acc h; exact h
  | cons u us ih =>
    intro acc h
    simp only [List.foldl_cons]
    exact ih _ (epStep_pos h)

theorem foldl_epStep_pairwise :
    ∀ (urls : List String) (acc : List Episode),
      List.Pairwise (fun a b => a.num ≠ b.num) acc →
      List.Pairwise (fun a b => a.num ≠ b.num) (urls.foldl epStep acc) := by
  intro urls
  induction urls with
  | nil => intro acc h; exact h
  | cons u us ih =>
    intro acc h
    simp only [List.foldl_cons]
    exact ih _ (epStep_pairwise h)

/-- Once the accumulator's episodes with number `n` are exactly `[e]`,
further URLs never change that (duplicate numbers are dropped). -/
theorem foldl_epStep_filter_stable {n : Nat} :
    ∀ (urls : List String) (acc : List Episode) (e : Episode),
      acc.filter (fun x => x.num == n) = [e] →
      (urls.foldl epStep acc).filter (fun x => x.num == n) = [e] := by
  intro urls
  induction urls with
  | nil => intro acc e h; exact h
  | cons u us ih =>
    intro acc e h
    have hemem : e ∈ acc ∧ (e.num == n) = true :=
      List.mem_filter.mp (h ▸ List.mem_singleton_self e)
    simp only [List.foldl_cons]
    apply ih
    unfold epStep
    cases hn : epNum u with
    | none => exact h
    | some m =>
      dsimp only
      by_cases hc : 0 < m ∧ ∀ x ∈ acc, x.num ≠ m
      · rw [if_pos hc, List.filter_append]
        have hmn : ¬((m : Nat) == n) = true := by
          intro hEq
          exact (hc.2 e hemem.1) (by
            have h1 : e.num = n := by simpa using hemem.2
            have h2 : m = n := by simpa using hEq
            rw [h1, h2])
        rw [h]
        simp [hmn]
      · rw [if_neg hc]; exact h

/-- The first URL in iteration order carrying number `n` provides the
unique episode numbered `n`. -/
theorem foldl_epStep_first {n : Nat} (hn : 0 < n) :
    ∀ (urls : List String) (acc : List Episode) (u : String),
      (∀ x ∈ acc, x.num ≠ n) →
      urls.find? (fun v => epNum v == some n) = some u →
      (urls.foldl epStep acc).filter (fun x => x.num == n) =
        [⟨n, "第" ++ toString n ++ "集", u⟩] := by
  intro urls
  induction urls with
  | nil => intro acc u h hf; simp at hf
  | cons v vs ih =>
    intro acc u hacc hf
    by_cases hv : (epNum v == some n) = true
    · rw [List.find?_cons_of_pos _ (p := fun w => epNum w == some n) hv] at hf
      have hvu : v = u := by simpa using hf
      have hvn : epNum v = some n := by simpa using hv
      simp only [List.foldl_cons]
      have hstep : epStep acc v = acc ++ [⟨n, "第" ++ toString n ++ "集", v⟩] := by
        unfold epStep
        rw [hvn]
        dsimp only
        rw [if_pos ⟨hn, hacc⟩]
      rw [hstep, hvu]
      apply foldl_epStep_filter_stable
      rw [List.filter_append]
      have h1 : acc.filter (fun x => x.num == n) = [] := by
        apply List.filter_eq_nil_iff.mpr
        intro x hx
        simp [hacc x hx]
      rw [h1]
      simp
    · rw [List.find?_cons_of_neg _ (p := fun w => epNum w == some n) hv] at hf
      simp only [List.foldl_cons]
      apply ih _ _ _ hf
      intro x hx
      rcases epStep_mem hx with h1 | ⟨m, hm, -, -, hx'⟩
      · exact hacc x h1
      · rw [hx']
        intro hEq
        simp only at hEq
        apply hv
        rw [hm]
        simp [hEq]

/-- When no URL parses to a positive number, no episode is collected. -/
theorem collectNumbered_eq_nil {urls : List String}
    (h : ∀ u ∈ urls, ∀ n, epNum u = some n → n = 0) : collectNumbered urls = [] := by
  unfold collectNumbered
  have main : ∀ (us : List String), (∀ u ∈ us, ∀ n, epNum u = some n → n = 0) →
      us.foldl epStep [] = [] := by
    intro us
    induction us with
    | nil => intro h2; rfl
    | cons u us2 ih =>
      intro h2
      simp only [List.foldl_cons]
      have hstep : epStep [] u = [] := by
        unfold epStep
        cases hn : epNum u with
        | none => rfl
        | some m =>
          have hm := h2 u (by simp) m hn
          dsimp only
          rw [if_neg (fun hc => absurd hc.1 (by omega))]
      rw [hstep]
      exact ih fun u1 hu1 => h2 u1 (List.mem_cons_of_mem _ hu1)
  exact main urls h

/-! ## Sorting lemmas -/

theorem insertIn_perm {α : Type} (blt : α → α → Bool) (x : α) :
    ∀ l : List α, (insertIn blt x l).Perm (x :: l) := by
  intro l
  induction l with
  | nil => exact List.Perm.refl _
  | cons y ys ih =>
    unfold insertIn
    by_cases hb : blt y x = true
    · rw [if_pos hb]
      exact List.Perm.trans (List.Perm.cons y ih) (List.Perm.swap x y ys)
    · rw [if_neg hb]

theorem insertionSort_perm {α : Type} (blt : α → α → Bool) :
    ∀ l : List α, (insertionSort blt l).Perm l := by
  intro l
  induction l with
  | nil => exact List.Perm.refl _
  | cons x xs ih =>
    unfold insertionSort
    exact List.Perm.trans (insertIn_perm blt x _) (List.Perm.cons x ih)

theorem insertIn_pairwise {α : Type} {blt : α → α → Bool} {R : α → α → Prop}
    (h1 : ∀ a b, blt a b = true → R a b)
    (h2 : ∀ a b, blt a b = false → R b a)
    (h3 : ∀ a b c, R a b → R b c → R a c)
    (x : α) :
    ∀ {l : List α}, List.Pairwise R l → List.Pairwise R (insertIn blt x l) := by
  intro l
  induction l with
  | nil => intro h; exact List.pairwise_singleton R x
  | cons y ys ih =>
    intro hp
    have hp1 := List.pairwise_cons.mp hp
    unfold insertIn
    by_cases hb : blt y x = true
    · rw [if_pos hb]
      rw [List.pairwise_cons]
      refine ⟨fun z hz => ?_, ih hp1.2⟩
      have hmem := (insertIn_perm blt x ys).mem_iff.mp hz
      rcases List.mem_cons.mp hmem with h4 | h4
      · rw [h4]; exact h1 y x hb
      · exact hp1.1 z h4
    · rw [if_neg hb]
      have hbf : blt y x = false := by simpa using hb
      rw [List.pairwise_cons]
      refine ⟨fun z hz => ?_, hp⟩
      rcases List.mem_cons.mp hz with h4 | h4
      · rw [h4]; exact h2 y x hbf
      · exact h3 x y z (h2 y x hbf) (hp1.1 z h4)

theorem insertionSort_pairwise {α : Type} {blt : α → α → Bool} {R : α → α → Prop}
    (h1 : ∀ a b, blt a b = true → R a b)
    (h2 : ∀ a b, blt a b = false → R b a)
    (h3 : ∀ a b c, R a b → R b c → R a c) :
    ∀ l : List α, List.Pairwise R (insertionSort blt l) := by
  intro l
  induction l with
  | nil => exact List.Pairwise.nil
  | cons x xs ih =>
    unfold insertionSort
    exact insertIn_pairwise h1 h2 h3 x ih

/-! ## `resolveEpisodes` invariants -/

theorem fallbackEps_pos {eps : List Episode} {urls : List String}
    (h : ∀ e ∈ eps, 0 < e.num) : ∀ e ∈ fallbackEps eps urls, 0 < e.num := by
  unfold fallbackEps
  match eps, urls with
  | [], [] => exact h
  | [], u :: us => intro e he; simp only [List.mem_singleton] at he; rw [he]; exact Nat.one_pos
  | e0 :: es, _ => exact h

theorem fallbackEps_pairwise {eps : List Episode} {urls : List String}
    (h : List.Pairwise (fun a b : Episode => a.num ≠ b.num) eps) :
    List.Pairwise (fun a b : Episode => a.num ≠ b.num) (fallbackEps eps urls) := by
  unfold fallbackEps
  match eps, urls with
  | [], [] => exact h
  | [], u :: us => exact List.pairwise_singleton _ _
  | e0 :: es, _ => exact h

theorem fallbackEps_ne_nil {eps : List Episode} {u : String} {us : List String} :
    fallbackEps eps (u :: us) ≠ [] := by
  unfold fallbackEps
  match eps with
  | [] => simp
  | e0 :: es => simp

theorem fallbackEps_of_ne_nil {eps : List Episode} (urls : List String) (h : eps ≠ []) :
    fallbackEps eps urls = eps := by
  match eps with
  | [] => exact absurd rfl h
  | e :: es =>
    unfold fallbackEps
    rfl

theorem collectNumbered_pos (urls : List String) :
    ∀ e ∈ collectNumbered urls, 0 < e.num :=
  foldl_epStep_pos urls [] (by simp)

theorem collectNumbered_pairwise (urls : List String) :
    List.Pairwise (fun a b : Episode => a.num ≠ b.num) (collectNumbered urls) :=
  foldl_epStep_pairwise urls [] List.Pairwise.nil

/-- The resolved episode list is strictly ascending in episode number
(hence numbers are pairwise distinct), and every number is positive. -/
theorem resolveEpisodes_sorted_pos (urls : List String) :
    List.Pairwise (fun a b : Episode => a.num < b.num) (resolveEpisodes urls) ∧
      ∀ e ∈ resolveEpisodes urls, 0 < e.num := by
  unfold resolveEpisodes
  have hpos : ∀ e ∈ fallbackEps (collectNumbered urls) urls, 0 < e.num :=
    fallbackEps_pos (collectNumbered_pos urls)
  have hpw : List.Pairwise (fun a b : Episode => a.num ≠ b.num)
      (fallbackEps (collectNumbered urls) urls) :=
    fallbackEps_pairwise (collectNumbered_pairwise urls)
  have hperm := insertionSort_perm epLt (fallbackEps (collectNumbered urls) urls)
  have hle : List.Pairwise (fun a b : Episode => a.num ≤ b.num)
      (insertionSort epLt (fallbackEps (collectNumbered urls) urls)) := by
    apply insertionSort_pairwise
    · intro a b hab
      unfold epLt at hab
      rw [Nat.blt_eq] at hab
      exact Nat.le_of_lt hab
    · intro a b hab
      unfold epLt at hab
      have hnlt : ¬ a.num < b.num := by rw [← Nat.blt_eq, hab]; simp
      omega
    · intro a b c h4 h5; omega
  have hne : List.Pairwise (fun a b : Episode => a.num ≠ b.num)
      (insertionSort epLt (fallbackEps (collectNumbered urls) urls)) := by
    refine (hperm.pairwise_iff ?_).mpr hpw
    intro a b hab
    exact hab.symm
  constructor
  · exact (hle.and hne).imp (fun hab => Nat.lt_of_le_of_ne hab.1 hab.2)
  · intro e he
    exact hpos e (hperm.mem_iff.mp he)

theorem resolveEpisodes_nil : resolveEpisodes [] = [] := rfl

theorem resolveEpisodes_ne_nil {u : String} {us : List String} :
    resolveEpisodes (u :: us) ≠ [] := by
  unfold resolveEpisodes
  intro h
  have hperm := insertionSort_perm epLt (fallbackEps (collectNumbered (u :: us)) (u :: us))
  rw [h] at hperm
  exact fallbackEps_ne_nil (List.Perm.eq_nil hperm.symm)

/-! ## `findSome?` helpers -/

theorem findSome?_some_mem {α β : Type} {f : α → Option β} :
    ∀ {l : List α} {b : β}, l.findSome? f = some b → ∃ x, x ∈ l ∧ f x = some b := by
  intro l
  induction l with
  | nil => intro b h; simp at h
  | cons x xs ih =>
    intro b h
    rw [List.findSome?_cons] at h
    cases hx : f x with
    | some y =>
      rw [hx] at h
      exact ⟨x, by simp, by rw [hx]; exact h⟩
    | none =>
      rw [hx] at h
      obtain ⟨z, hz, hfz⟩ := ih h
      exact ⟨z, List.mem_cons_of_mem _ hz, hfz⟩

theorem findSome?_at_index {α β : Type} {f : α → Option β} :
    ∀ (l : List α) (i : Nat) (hi : i < l.length) (b : β),
      (∀ j, (hj : j < i) → f (l.get ⟨j, Nat.lt_trans hj hi⟩) = none) →
      f (l.get ⟨i, hi⟩) = some b → l.findSome? f = some b := by
  intro l
  induction l with
  | nil => intro i hi; simp at hi
  | cons x xs ih =>
    intro i hi b hnone hsome
    rw [List.findSome?_cons]
    cases i with
    | zero =>
      have hx : f x = some b := hsome
      rw [hx]
    | succ i1 =>
      have h0 : f x = none := by simpa using hnone 0 (Nat.succ_pos i1)
      rw [h0]
      apply ih i1 (Nat.lt_of_succ_lt_succ hi) b
      · intro j hj
        simpa using hnone (j + 1) (Nat.succ_lt_succ hj)
      · simpa using hsome

/-! ## Structure of extraction results -/

/-- The shape of a successful extraction: episodes come from
`resolveEpisodes order`, the primary URL is the head of the iteration
order, no failure reason. -/
theorem extractFromHtml_some {vid purl html : String} {order : List String} {r : VideoInfo}
    (h : extractFromHtml vid purl html order = some r) :
    r.episodes = resolveEpisodes order ∧
      r.video_url = headOr order ∧ r.error = none := by
  unfold extractFromHtml at h
  cases hf : titlePatterns.findSome? (fun p => reSearchG p html) with
  | none => rw [hf] at h; simp at h
  | some raw =>
    rw [hf] at h
    dsimp only at h
    by_cases ht : cleanTitle (pyStrip raw) = ""
    · rw [if_pos ht] at h; simp at h
    · rw [if_neg ht] at h
      have hr := Option.some.inj h
      subst hr
      exact ⟨rfl, rfl, rfl⟩

/-- A record that fails the validity filter contributes nothing. -/
theorem validVideos_cons_invalid {r : VideoInfo} {vs : List VideoInfo}
    (hr : (r.title != "" && !errTruthy r.error &&
      (r.video_url != "" || !r.episodes.isEmpty)) = false) :
    validVideos (r :: vs) = validVideos vs := by
  unfold validVideos
  rw [List.filter_cons_of_neg]
  simp [hr]

/-- Dropping a filtered-out record does not change the report. -/
theorem generate_import_text_cons_invalid {r : VideoInfo} {vs : List VideoInfo}
    (hr : (r.title != "" && !errTruthy r.error &&
      (r.video_url != "" || !r.episodes.isEmpty)) = false) :
    generate_import_text (r :: vs) = generate_import_text vs := by
  unfold generate_import_text
  rw [validVideos_cons_invalid hr]

/-- A successful author rule returns a value within the length bounds. -/
theorem ruleResult_bounds {p : Pat} {t a : String} (h : ruleResult p t = some a) :
    2 ≤ a.length ∧ a.length ≤ 50 := by
  unfold ruleResult at h
  cases hg : reSearchG p t with
  | none => rw [hg] at h; simp at h
  | some g =>
    rw [hg] at h
    simp only [Option.some_bind] at h
    by_cases hc : 2 ≤ (pyStrip g).length ∧ (pyStrip g).length ≤ 50
    · rw [if_pos hc] at h
      have ha := Option.some.inj h
      rw [← ha]; exact hc
    · rw [if_neg hc] at h; simp at h

/-! ## Claim theorems -/

/-- The C8 example records: `rec8a` has two episodes, each with a URL,
and author `"zeta"`; `rec8b` has no episodes but a primary URL and
author `"alpha"`. -/
def rec8a : VideoInfo :=
  ⟨"1", "T1", "zeta", "", "", "u1", [], [⟨1, "第1集", "eu1"⟩, ⟨2, "第2集", "eu2"⟩], "p1", none⟩

/-- Second C8 example record, see `rec8a`. -/
def rec8b : VideoInfo :=
  ⟨"2", "T2", "alpha", "", "", "u2", [], [], "p2", none⟩

/-- C8: the formatter's emitted count equals the number of blocks, not
records: one valid record with 2 URL-bearing episodes plus one valid
record with 0 episodes but a primary URL yield `emittedCount = 3`, with
the author groups sorted lexicographically (`alpha` before `zeta`) even
though the `zeta` record comes first in the input. -/
theorem claim_C8 :
    generate_import_text [rec8a, rec8b] =
      ("合集：alpha\n\n标题：T2\n视频：u2\n\n合集：zeta\n\n标题：T1 - 第1集\n视频：eu1\n\n标题：T1 - 第2集\n视频：eu2\n",
       3) := by
  decide

/-- The C10 example record: passes the validity filter (it has one
episode), but has at most one episode and an empty primary URL. -/
def rec10 : VideoInfo := ⟨"1", "T", "X", "", "", "", [], [⟨1, "第1集", "u"⟩], "p", none⟩

/-- C10: a record that passes the validity filter with at most one
episode and an empty primary URL contributes zero blocks while its
author's `合集：` header is still emitted; `emittedCount` (0) is strictly
below the filtered-record count (1) and the output is a bare header. -/
theorem claim_C10 :
    validVideos [rec10] = [rec10] ∧
      generate_import_text [rec10] = ("合集：X\n", 0) ∧
      (generate_import_text [rec10]).2 < (validVideos [rec10]).length := by
  exact ⟨by decide, by decide, by decide⟩

/-- C2 counterexample: for a URL with no `/archives/<digits>.html` token,
the id is `str(hash(url))[:8]`; two process runs whose hash functions
differ on the URL (Python's string hash is salted per process) produce
different ids, so the id is not derived from the URL alone. -/
theorem claim_C2_counterexample :
    videoId (fun _ => 0) "https://tv.mikiacg.org/about" ≠
      videoId (fun _ => 1) "https://tv.mikiacg.org/about" := by
  decide

/-- C2 (amended): the id is deterministic from the URL alone **when** the
URL carries a numeric archive token — it is then the captured digit
string regardless of the process hash function; otherwise it is the first
8 characters of `str(hash(url))`, which is fixed for one process hash
function but not across processes. -/
theorem claim_C2 :
    (∀ (h : String → Int) (url ds : String),
        reSearchG archivesPat url = some ds → videoId h url = ds) ∧
    (∀ (h : String → Int) (url : String),
        reSearchG archivesPat url = none →
          videoId h url = (toString (h url)).take 8) := by
  constructor
  · intro h url ds hds
    unfold videoId
    rw [hds]
  · intro h url hn
    unfold videoId
    rw [hn]

/-- Witness for C2 at a concrete URL with an archive token. -/
theorem claim_C2_witness :
    reSearchG archivesPat "https://tv.mikiacg.org/archives/123.html" = some "123" ∧
      videoId (fun _ => 0) "https://tv.mikiacg.org/archives/123.html" = "123" := by
  have h1 : reSearchG archivesPat "https://tv.mikiacg.org/archives/123.html" = some "123" := by
    decide
  exact ⟨h1, claim_C2.1 (fun _ => 0) _ _ h1⟩

/-- C3: `extract_author` on the two reference inputs; every inferred
author is the sentinel or has (trimmed) length in `[2, 50]` (the returned
value is the stripped capture, so its length is its trimmed length); and
the first rule (in the listed four-rule order) whose captured group
passes the length check determines the result. -/
theorem claim_C3 :
    extract_author "【漫画】张三「第一话】" = "张三" ∧
    extract_author "random text" = "未分类" ∧
    (∀ t : String, extract_author t = "未分类" ∨
      (2 ≤ (extract_author t).length ∧ (extract_author t).length ≤ 50)) ∧
    (∀ (t : String) (i : Nat) (hi : i < authorPatterns.length) (a : String),
      (∀ j, (hj : j < i) → ruleResult (authorPatterns.get ⟨j, Nat.lt_trans hj hi⟩) t = none) →
      ruleResult (authorPatterns.get ⟨i, hi⟩) t = some a →
      extract_author t = a) := by
  refine ⟨by decide, by decide, ?_, ?_⟩
  · intro t
    unfold extract_author
    cases hf : authorPatterns.findSome? (fun p => ruleResult p t) with
    | none => left; rfl
    | some a =>
      right
      simp only [Option.getD_some]
      obtain ⟨p, -, hp⟩ := findSome?_some_mem hf
      exact ruleResult_bounds hp
  · intro t i hi a hnone hsome
    unfold extract_author
    rw [findSome?_at_index authorPatterns i hi a hnone hsome]
    rfl

/-- Witness for C3: rule 1 fires on the reference input. -/
theorem claim_C3_witness :
    ruleResult (authorPatterns.get ⟨0, by decide⟩) "【漫画】张三「第一话】" = some "张三" ∧
      extract_author "【漫画】张三「第一话】" = "张三" := by
  have hr : ruleResult (authorPatterns.get ⟨0, by decide⟩) "【漫画】张三「第一话】"
      = some "张三" := by decide
  exact ⟨hr, claim_C3.2.2.2 _ 0 (by decide) _ (fun j hj => absurd hj (by omega)) hr⟩

/-- The C1 document: two distinct media URLs both ending in `/5.mp4`. -/
def doc1 : String :=
  "\"https://cdn.mikiacg.vip/a/5.mp4\" \"https://cdn.mikiacg.vip/b/5.mp4\""

/-- First URL of `doc1`. -/
def url5a : String := "https://cdn.mikiacg.vip/a/5.mp4"

/-- Second URL of `doc1`. -/
def url5b : String := "https://cdn.mikiacg.vip/b/5.mp4"

/-- C1 counterexample: both `[url5a, url5b]` and `[url5b, url5a]` are
iteration orders of the discovered-URL set of `doc1` (Python `set`
iteration order is unspecified and salted per process), and episode
resolution returns different episode lists on them — so "first-seen wins"
and cross-run determinism are not guaranteed by the code. -/
theorem claim_C1_counterexample :
    List.Perm [url5a, url5b] (discoveredUrls doc1) ∧
    List.Perm [url5b, url5a] (discoveredUrls doc1) ∧
    resolveEpisodes [url5a, url5b] ≠ resolveEpisodes [url5b, url5a] := by
  have hd : discoveredUrls doc1 = [url5a, url5b] := by decide
  exact ⟨by rw [hd], by rw [hd]; exact List.Perm.swap url5a url5b [], by decide⟩

/-- C1 (amended): for any iteration order of the discovered set, episode
resolution returns exactly one episode for each positive number `n` that
occurs, and its URL is the **first URL in that iteration order** whose
parsed number is `n`; the result is a function of the document and the
iteration order, but the iteration order itself is unspecified, so
determinism across runs is not guaranteed (see the counterexample). -/
theorem claim_C1 :
    ∀ (order : List String) (n : Nat) (u : String), 0 < n →
      order.find? (fun v => epNum v == some n) = some u →
      (resolveEpisodes order).filter (fun e => e.num == n) =
        [⟨n, "第" ++ toString n ++ "集", u⟩] := by
  intro order n u hn hf
  unfold resolveEpisodes
  have hcol : (collectNumbered order).filter (fun e => e.num == n) =
      [⟨n, "第" ++ toString n ++ "集", u⟩] :=
    foldl_epStep_first hn order [] u (by simp) hf
  have hne : collectNumbered order ≠ [] := by
    intro h0
    rw [h0] at hcol
    simp at hcol
  rw [fallbackEps_of_ne_nil order hne]
  have hperm :=
    List.Perm.filter (fun e => e.num == n) (insertionSort_perm epLt (collectNumbered order))
  rw [hcol] at hperm
  exact List.perm_singleton.mp hperm

/-- Witness for C1 on a concrete order with a duplicate number 5. -/
theorem claim_C1_witness :
    (0 < 5 ∧ [url5a, url5b].find? (fun v => epNum v == some 5) = some url5a) ∧
      (resolveEpisodes [url5a, url5b]).filter (fun e => e.num == 5) =
        [⟨5, "第" ++ toString 5 ++ "集", url5a⟩] := by
  have h1 : [url5a, url5b].find? (fun v => epNum v == some 5) = some url5a := by decide
  exact ⟨⟨by decide, h1⟩, claim_C1 [url5a, url5b] 5 url5a (by decide) h1⟩

/-- The C4 example document with URLs ending `/3.mp4` and `/1.mp4`. -/
def doc4 : String :=
  "\"https://cdn.mikiacg.vip/x/3.mp4\" \"https://cdn.mikiacg.vip/x/1.mp4\""

/-- C4: for every iteration order of discovered URLs, the resolved
episode list is strictly ascending in episode number — so numbers are
pairwise distinct and the order is ascending — and every number is
positive; on the example document with `/3.mp4` and `/1.mp4` the numbers
come out `[1, 3]`. -/
theorem claim_C4 :
    (∀ order : List String,
      List.Pairwise (fun a b : Episode => a.num < b.num) (resolveEpisodes order) ∧
        ∀ e ∈ resolveEpisodes order, 0 < e.num) ∧
    (resolveEpisodes (discoveredUrls doc4)).map (fun e => e.num) = [1, 3] :=
  ⟨resolveEpisodes_sorted_pos, by decide⟩

/-- Witness for C4's membership hypothesis at a concrete episode. -/
theorem claim_C4_witness :
    (⟨2, "第2集", "https://cdn.mikiacg.vip/x/2.mp4"⟩ : Episode) ∈
        resolveEpisodes ["https://cdn.mikiacg.vip/x/2.mp4"] ∧
      0 < (Episode.mk 2 "第2集" "https://cdn.mikiacg.vip/x/2.mp4").num := by
  have hm : (⟨2, "第2集", "https://cdn.mikiacg.vip/x/2.mp4"⟩ : Episode) ∈
      resolveEpisodes ["https://cdn.mikiacg.vip/x/2.mp4"] := by decide
  exact ⟨hm, (claim_C4.1 ["https://cdn.mikiacg.vip/x/2.mp4"]).2 _ hm⟩

/-- C5: when the discovered set is non-empty but no discovered URL parses
to a positive episode number, resolution yields exactly one episode,
numbered 1 and labelled `"正片"`, whose URL is one of the discovered
URLs. -/
theorem claim_C5 :
    ∀ (html : String) (order : List String),
      List.Perm order (discoveredUrls html) → order ≠ [] →
      (∀ u ∈ order, ∀ n, epNum u = some n → n = 0) →
      ∃ u, u ∈ discoveredUrls html ∧ resolveEpisodes order = [⟨1, "正片", u⟩] := by
  intro html order hperm hne hnum
  match order, hne with
  | u :: us, _ =>
    refine ⟨u, hperm.mem_iff.mp (by simp), ?_⟩
    unfold resolveEpisodes
    have hcol : collectNumbered (u :: us) = [] := collectNumbered_eq_nil hnum
    rw [hcol]
    rfl

/-- The C5 example document: one media URL with no episode number. -/
def doc5 : String := "\"https://cdn.mikiacg.vip/a/video.mp4\""

/-- Witness for C5 on `doc5`. -/
theorem claim_C5_witness :
    ∃ u, u ∈ discoveredUrls doc5 ∧
      resolveEpisodes (discoveredUrls doc5) = [⟨1, "正片", u⟩] := by
  apply claim_C5 doc5 (discoveredUrls doc5) (List.Perm.refl _) (by decide)
  intro u hu n hn
  have hd : discoveredUrls doc5 = ["https://cdn.mikiacg.vip/a/video.mp4"] := by decide
  rw [hd] at hu
  simp only [List.mem_singleton] at hu
  rw [hu] at hn
  have : epNum "https://cdn.mikiacg.vip/a/video.mp4" = none := by decide
  rw [this] at hn
  exact absurd hn (by simp)

/-- C6: on a successfully fetched document where none of the ordered
title patterns matches, the scraper produces no record at all (`none`) —
not a record with an empty title and not a tagged-failure record. -/
theorem claim_C6 :
    ∀ (page_url : String) (f : Nat → Except String String) (h : String → Int)
      (order : List String) (html : String),
      f 0 = Except.ok html →
      (∀ p ∈ titlePatterns, reSearchG p html = none) →
      extract_from_page page_url f h order = none := by
  intro purl f h order html hf hnone
  unfold extract_from_page
  rw [hf]
  dsimp only
  unfold extractFromHtml
  rw [List.findSome?_eq_none_iff.mpr hnone]

/-- Witness for C6 on a document with no markup. -/
theorem claim_C6_witness :
    extract_from_page "u" (fun _ => Except.ok "hello world") (fun _ => 0) [] = none := by
  apply claim_C6 "u" _ _ _ "hello world" rfl
  decide

/-- C7: when all three fetch attempts fail, the scraper returns a record
whose `error` is the last attempt's message and whose title, author,
description, cover URL, primary URL, tags and episodes are all empty; and
prepending such a record to any input leaves the formatted report
unchanged (it is excluded by the validity filter). -/
theorem claim_C7 :
    ∀ (page_url : String) (f : Nat → Except String String) (h : String → Int)
      (order : List String) (e0 e1 e2 : String),
      f 0 = Except.error e0 → f 1 = Except.error e1 → f 2 = Except.error e2 →
      ∃ r, extract_from_page page_url f h order = some r ∧
        r.error = some e2 ∧ r.title = "" ∧ r.author = "" ∧ r.description = "" ∧
        r.cover_url = "" ∧ r.video_url = "" ∧ r.tags = [] ∧ r.episodes = [] ∧
        ∀ vs, generate_import_text (r :: vs) = generate_import_text vs := by
  intro purl f h order e0 e1 e2 h0 h1 h2
  refine ⟨failRecord (videoId h purl) purl e2, ?_, rfl, rfl, rfl, rfl, rfl, rfl, rfl, rfl, ?_⟩
  · unfold extract_from_page
    rw [h0]
    dsimp only
    rw [h1]
    dsimp only
    rw [h2]
  · intro vs
    apply generate_import_text_cons_invalid
    rfl

/-- Witness for C7 with three concrete failing attempts. -/
theorem claim_C7_witness :
    ∃ r, extract_from_page "u" (fun i => Except.error (toString i)) (fun _ => 0) [] = some r ∧
      r.error = some "2" ∧ r.title = "" ∧ r.author = "" ∧ r.description = "" ∧
      r.cover_url = "" ∧ r.video_url = "" ∧ r.tags = [] ∧ r.episodes = [] ∧
      ∀ vs, generate_import_text (r :: vs) = generate_import_text vs :=
  claim_C7 "u" (fun i => Except.error (toString i)) (fun _ => 0) [] "0" "1" "2" rfl rfl rfl

/-- For any iteration order of a document's discovered set, a successful
extraction has empty episodes exactly when the primary URL is empty. -/
theorem extractFromHtml_iff {vid purl html : String} {order : List String} {r : VideoInfo}
    (hperm : List.Perm order (discoveredUrls html))
    (h : extractFromHtml vid purl html order = some r) :
    r.episodes = [] ↔ r.video_url = "" := by
  obtain ⟨heps, hurl, -⟩ := extractFromHtml_some h
  match order, hperm with
  | [], hperm =>
    rw [heps, hurl]
    simp [resolveEpisodes_nil, headOr]
  | u :: us, hperm =>
    rw [heps, hurl]
    have h1 : resolveEpisodes (u :: us) ≠ [] := resolveEpisodes_ne_nil
    have h2 : u ≠ "" := mem_discoveredUrls_ne_empty (hperm.mem_iff.mp (by simp))
    have hh : headOr (u :: us) = u := rfl
    rw [hh]
    exact iff_of_false h1 h2

/-- C9: for every record the scraper returns without a failure reason,
the episode list is empty iff the primary media URL is empty (the fetch
hypothesis names the attempt that succeeded with the document `html`, and
`order` is an arbitrary iteration order of its discovered-URL set). -/
theorem claim_C9 :
    ∀ (page_url html : String) (f : Nat → Except String String) (hs : String → Int)
      (order : List String) (r : VideoInfo),
      (f 0 = Except.ok html ∨
        ((∃ e, f 0 = Except.error e) ∧ f 1 = Except.ok html) ∨
        ((∃ e, f 0 = Except.error e) ∧ (∃ e, f 1 = Except.error e) ∧ f 2 = Except.ok html)) →
      List.Perm order (discoveredUrls html) →
      extract_from_page page_url f hs order = some r →
      r.error = none →
      (r.episodes = [] ↔ r.video_url = "") := by
  intro purl html f hs order r hcase hperm hx herr
  unfold extract_from_page at hx
  rcases hcase with h0 | ⟨⟨e0, h0⟩, h1⟩ | ⟨⟨e0, h0⟩, ⟨e1, h1⟩, h2⟩
  · rw [h0] at hx
    dsimp only at hx
    exact extractFromHtml_iff hperm hx
  · rw [h0] at hx
    dsimp only at hx
    rw [h1] at hx
    dsimp only at hx
    exact extractFromHtml_iff hperm hx
  · rw [h0] at hx
    dsimp only at hx
    rw [h1] at hx
    dsimp only at hx
    rw [h2] at hx
    dsimp only at hx
    exact extractFromHtml_iff hperm hx

/-- The C9 example document: a title and one unnumbered media URL. -/
def doc9 : String := "<title>T</title>\"https://cdn.mikiacg.vip/a/v.mp4\""

/-- The record the scraper produces on `doc9` (hash function constantly
0, so the fallback id is `"0"`). -/
def rec9 : VideoInfo :=
  ⟨"0", "T", "未分类", "", "", "https://cdn.mikiacg.vip/a/v.mp4", [],
   [⟨1, "正片", "https://cdn.mikiacg.vip/a/v.mp4"⟩], "u", none⟩

/-- Witness for C9 on `doc9`. -/
theorem claim_C9_witness :
    extract_from_page "u" (fun _ => Except.ok doc9) (fun _ => 0) (discoveredUrls doc9)
        = some rec9 ∧
      (rec9.episodes = [] ↔ rec9.video_url = "") := by
  have hx : extract_from_page "u" (fun _ => Except.ok doc9) (fun _ => 0) (discoveredUrls doc9)
      = some rec9 := by decide
  exact ⟨hx, claim_C9 "u" doc9 (fun _ => Except.ok doc9) (fun _ => 0) (discoveredUrls doc9)
    rec9 (Or.inl rfl) (List.Perm.refl _) hx rfl⟩
